import Mathlib

/-!
# my-es: index provisioning, feed ingestion and match query

A shallow embedding of `main.go`.  The program is sequential glue over two
HTTP services (the search engine and the remote feed).  Every network call and
every `Close` of a response body is answered by an explicit environment
`Net σ`, a deterministic state machine over an arbitrary state type `σ`; the
program threads a `World σ` (environment state plus the trace of observable
events) through `prepare`, `crawl`, `search` and `RunE`.

Library functions whose code is not part of the program (`encoding/json`,
`esapi.Response.String`, `elasticsearch.NewClient`) are taken as parameters,
collected in `Lib`.
-/

namespace MyEs

/-! ## Errors -/

/-- Go `error` values, by origin: `errors.New` and `fmt.Errorf` of this
program, errors handed back by a library or the network (`ext`), and the two
shapes `errors.Join(err, e)` produces when `e` is non-nil. -/
inductive Err where
  | new (text : String)
  | errorf (text : String)
  | ext (text : String)
  | join1 (e : Err)
  | join2 (err e : Err)
  deriving DecidableEq, Repr

/-- Go `errors.Join(err, e)`: nil values are discarded, the result is nil when
both are nil and a fresh join error otherwise. -/
def errorsJoin (err e : Option Err) : Option Err :=
  match err, e with
  | none, none => none
  | some a, none => some (Err.join1 a)
  | none, some b => some (Err.join1 b)
  | some a, some b => some (Err.join2 a b)

/-! ## Data model -/

/-- Go `type Post struct`. -/
structure Post where
  ID : Int
  Title : String
  Body : String
  JapanseBody : String
  deriving DecidableEq, Repr

/-- Go `json.RawMessage`: an undecoded JSON value. -/
abbrev RawMessage := String

/-- Go `type SearchResponse struct`: the `_source` of every hit of `hits.hits`,
in response order. -/
structure SearchResponse where
  Hits : List RawMessage
  deriving DecidableEq, Repr

def indexName : String := "posts"

def mapping : String :=
  "\x7b\n" ++
  "        \"mappings\": \x7b\n" ++
  "            \"properties\": \x7b\n" ++
  "                \"id\": \x7b\n" ++
  "                    \"type\": \"integer\"\n" ++
  "                \x7d,\n" ++
  "                \"title\": \x7b\n" ++
  "                    \"type\": \"text\"\n" ++
  "                \x7d,\n" ++
  "                \"body\": \x7b\n" ++
  "                    \"type\": \"text\"\n" ++
  "                \x7d,\n" ++
  "                \"japanese_body\": \x7b\n" ++
  "                    \"type\": \"text\",\n" ++
  "                    \"analyzer\": \"kuromoji\"\n" ++
  "                \x7d\n" ++
  "            \x7d\n" ++
  "        \x7d\n" ++
  "    \x7d"

def japaneseBodies : List String :=
  [ "吾輩は猫である。名前はまだ無い。",
    "どこで生れたかとんと見当がつかぬ。",
    "雨ニモマケズ風ニモマケズ雪ニモ夏ノ暑サニモマケヌ丈夫ナカラダヲモチ",
    "人間は皆、死ぬべき運命にある。 ",
    "おれは人間である、猿ではない。 ",
    "彼の掌に載せられてしまった私は、もう逃げるべくもなくなってしまった。",
    "旅をするということは、ただ単に移動することだけではない。",
    "月がきれいですね。",
    "山路を登りながら、こう考えた。",
    "人間は皆、自分自身の幸せを求める生き物だ。" ]

def crawlURL : String := "https://jsonplaceholder.typicode.com/posts"

def firstID : String := "1"

/-! ## The network environment -/

/-- What the program reads of an HTTP response: `StatusCode` and the text of
the body. -/
structure Response where
  StatusCode : Nat
  Body : String
  deriving DecidableEq, Repr

/-- Go `http.StatusNotFound`. -/
def StatusNotFound : Nat := 404

/-- Go `esapi.Response.IsError`: the status code is above 299. -/
def Response.IsError (r : Response) : Bool := decide (r.StatusCode > 299)

/-- The network requests the program can issue, one constructor per call site
kind, with the arguments the program passes. -/
inductive NetReq where
  /-- Call `client.Indices.Exists(index)`. -/
  | indicesExists (index : List String)
  /-- Request `esapi.IndicesCreateRequest{Index, Body}`. -/
  | indicesCreate (index body : String)
  /-- Request `esapi.GetRequest{Index, DocumentID}`. -/
  | get (index documentID : String)
  /-- Call `http.Get(url)`. -/
  | httpGet (url : String)
  /-- Request `esapi.IndexRequest{Index, DocumentID, Body, Refresh}`. -/
  | index (index documentID body refresh : String)
  /-- Call `client.Search(WithIndex(index), WithBody(body))`. -/
  | search (index body : String)
  deriving DecidableEq, Repr

/-- The three operations `RunE` dispatches to, with the arguments of `search`. -/
inductive Op where
  | prepare
  | crawl
  | search (key val : String)
  deriving DecidableEq, Repr

/-- Observable events, in program order.  A `call` carries the handle of the
response body it opened (`none` when the call failed in transport); `drain` is
`io.Copy(io.Discard, body)` and `close` is `body.Close()` on a handle;
`log` is `log.Println`, `print` is `fmt.Printf`; `invoke` marks the entry of
an operation. -/
inductive Event where
  | invoke (op : Op)
  | call (req : NetReq) (opened : Option Nat)
  | drain (body : Nat)
  | close (body : Nat)
  | log (line : String)
  | print (text : String)
  deriving DecidableEq, Repr

/-- The services the program talks to, as a deterministic state machine:
`roundTrip` answers a request with a transport error or a response,
`closeBody` answers `Close` on a response body with the error it returns. -/
structure Net (σ : Type) where
  roundTrip : σ → NetReq → σ × Except String Response
  closeBody : σ → Nat → σ × Option String

/-- Library functions the program calls, taken as parameters.
`jsonMarshal` is `json.Marshal` on a `Post` (total: a struct of an int and
three strings always serialises); the decoders are `Decode` and `Unmarshal` of
`encoding/json`; `responseString` is `esapi.Response.String`; `newClient` is the
error of `elasticsearch.NewClient` for the fixed configuration.
`decodeSearchResponse` has the two outcomes decode error and decoded response;
a body that is the JSON value `null`, which `Decode(&sr)` accepts by setting the
pointer `sr` to nil so that line 249 panics, is not covered by this model. -/
structure Lib where
  jsonMarshal : Post → String
  decodePosts : String → Except String (List Post)
  decodeSearchResponse : String → Except String SearchResponse
  unmarshalPost : RawMessage → Except String Post
  responseString : Response → String
  newClient : Option String

/-- Environment state and the events so far, oldest first. -/
structure World (σ : Type) where
  engine : σ
  trace : List Event

variable {σ : Type}

/-- Append one event to the trace. -/
def World.emit (w : World σ) (e : Event) : World σ :=
  { w with trace := w.trace ++ [e] }

/-- Issue one network request.  The handle of the opened body is the position
of the `call` event in the trace, hence fresh. -/
def perform (E : Net σ) (req : NetReq) (w : World σ) :
    World σ × Except Err (Nat × Response) :=
  match E.roundTrip w.engine req with
  | (s, Except.error e) =>
    ({ engine := s, trace := w.trace ++ [Event.call req none] }, Except.error (Err.ext e))
  | (s, Except.ok resp) =>
    ({ engine := s, trace := w.trace ++ [Event.call req (some w.trace.length)] },
      Except.ok (w.trace.length, resp))

/-- The deferred block
`if e := body.Close(); e != nil { err = errors.Join(err, e) }`
run on the named result `err` of the enclosing function. -/
def closeDeferred (E : Net σ) (body : Nat) (r : World σ × Option Err) : World σ × Option Err :=
  match E.closeBody r.1.engine body with
  | (s, none) => ({ engine := s, trace := r.1.trace ++ [Event.close body] }, r.2)
  | (s, some e) =>
    ({ engine := s, trace := r.1.trace ++ [Event.close body] },
      errorsJoin r.2 (some (Err.ext e)))

/-! ## The program -/

/-- Go `prepare` (lines 84-117).  On the path that creates the index the second
drain and the second deferred close are applied to `res`, the response of the
existence check, as in the source. -/
def prepare (L : Lib) (E : Net σ) (w : World σ) : World σ × Option Err :=
  match perform E (NetReq.indicesExists [indexName]) (w.emit (Event.invoke Op.prepare)) with
  | (w1, Except.error e) => (w1, some e)
  | (w1, Except.ok (res, resp)) =>
    closeDeferred E res <|
      if resp.StatusCode ≠ StatusNotFound then
        ((w1.emit (Event.drain res)).emit (Event.log "Index already exists"), none)
      else
        match perform E (NetReq.indicesCreate indexName mapping) (w1.emit (Event.drain res)) with
        | (w2, Except.error e) => (w2, some e)
        | (w2, Except.ok (_, rezResp)) =>
          if rezResp.IsError then
            (w2, some (Err.errorf ("Error: " ++ L.responseString rezResp)))
          else
            closeDeferred E res (w2.emit (Event.drain res), none)

/-- The body of the loop closure of `crawl` (lines 183-210) for the record `p`
at position `i`. -/
def indexPost (L : Lib) (E : Net σ) (i : Nat) (p : Post) (w : World σ) : World σ × Option Err :=
  let ji := i % 10
  let p : Post := { p with JapanseBody := japaneseBodies.get ⟨ji, Nat.mod_lt i (by decide)⟩ }
  let b := L.jsonMarshal p
  match perform E (NetReq.index indexName (toString p.ID) b "true") w with
  | (w1, Except.error e) => (w1, some e)
  | (w1, Except.ok (res, resp)) =>
    closeDeferred E res <|
      if resp.IsError then
        (w1.emit (Event.drain res), some (Err.errorf ("Error: " ++ L.responseString resp)))
      else
        (w1.emit (Event.drain res), none)

/-- The loop `for i, p := range posts` of `crawl` (lines 181-215), from
position `i` on: the first closure that returns an error ends the loop. -/
def crawlLoop (L : Lib) (E : Net σ) : Nat → List Post → World σ → World σ × Option Err
  | _, [], w => (w, none)
  | i, p :: ps, w =>
    match indexPost L E i p w with
    | (w1, some e) => (w1, some e)
    | (w1, none) => crawlLoop L E (i + 1) ps w1

/-- Go `crawl` (lines 144-216). -/
def crawl (L : Lib) (E : Net σ) (w : World σ) : World σ × Option Err :=
  match perform E (NetReq.get indexName firstID) (w.emit (Event.invoke Op.crawl)) with
  | (w1, Except.error e) => (w1, some e)
  | (w1, Except.ok (res, resp)) =>
    closeDeferred E res <|
      if resp.StatusCode ≠ StatusNotFound then
        ((w1.emit (Event.drain res)).emit (Event.log "Documents already exists"), none)
      else
        match perform E (NetReq.httpGet crawlURL) (w1.emit (Event.drain res)) with
        | (w2, Except.error e) => (w2, some e)
        | (w2, Except.ok (rez, rezResp)) =>
          closeDeferred E rez <|
            match L.decodePosts rezResp.Body with
            | Except.error e => (w2, some (Err.ext e))
            | Except.ok posts => crawlLoop L E 0 posts w2

/-- The loop of `search` (lines 249-256) that unmarshals every `_source`; the
first failure is returned. -/
def unmarshalHits (L : Lib) : List RawMessage → Except String (List Post)
  | [] => Except.ok []
  | hit :: hits =>
    match L.unmarshalPost hit with
    | Except.error e => Except.error e
    | Except.ok p =>
      match unmarshalHits L hits with
      | Except.error e => Except.error e
      | Except.ok ps => Except.ok (p :: ps)

/-- The query text of `search`:
`fmt.Sprintf` of the match-query template with `key` and `val`. -/
def searchQuery (key val : String) : String :=
  "\x7b\"query\": \x7b\"match\": \x7b\"" ++ key ++ "\": \"" ++ val ++ "\"\x7d\x7d\x7d"

/-- The two `fmt.Printf` steps of `search` (lines 260-263). -/
def printPosts (posts : List Post) (w : World σ) : World σ :=
  posts.foldl (fun acc p => acc.emit (Event.print (toString p.ID ++ "\n")))
    (w.emit (Event.print ("matched " ++ toString posts.length ++ " posts\n")))

/-- Go `search` (lines 226-265). -/
def search (L : Lib) (E : Net σ) (key val : String) (w : World σ) : World σ × Option Err :=
  let query := searchQuery key val
  match perform E (NetReq.search indexName query) (w.emit (Event.invoke (Op.search key val))) with
  | (w1, Except.error e) => (w1, some e)
  | (w1, Except.ok (res, resp)) =>
    closeDeferred E res <|
      if resp.IsError then
        (w1, some (Err.errorf ("Error: " ++ L.responseString resp)))
      else
        match L.decodeSearchResponse resp.Body with
        | Except.error e => (w1, some (Err.ext e))
        | Except.ok sr =>
          match unmarshalHits L sr.Hits with
          | Except.error e => (w1, some (Err.ext e))
          | Except.ok posts => (printPosts posts w1, none)

/-- Go `strings.Split` with a one-character separator, on the characters of
the string: one piece more than there are separators. -/
def splitChars (sep : Char) : List Char → List (List Char)
  | [] => [[]]
  | c :: cs =>
    if c = sep then [] :: splitChars sep cs
    else
      match splitChars sep cs with
      | [] => [[c]]
      | piece :: pieces => (c :: piece) :: pieces

/-- Go `strings.Split(q, ":")`. -/
def stringsSplit (q : String) (sep : Char) : List String :=
  (splitChars sep q.data).map String.mk

/-- The command-line flags read by `RunE`. -/
structure Flags where
  crawl : Bool
  search : Bool
  q : String
  deriving DecidableEq, Repr

/-- Go `rootCmd.RunE` (lines 22-47). -/
def RunE (L : Lib) (E : Net σ) (flags : Flags) (w : World σ) : World σ × Option Err :=
  if flags.crawl = flags.search then
    (w, some (Err.new "please specify either --search or --crawl"))
  else
    match L.newClient with
    | some e => (w, some (Err.ext e))
    | none =>
      match prepare L E w with
      | (w1, some e) => (w1, some e)
      | (w1, none) =>
        if flags.crawl then crawl L E w1
        else
          match stringsSplit flags.q ':' with
          | [key, val] => search L E key val w1
          | _ => (w1, some (Err.new "Invalid query format. Expected key:value"))

/-! ## Observations on traces -/

/-- The network requests of a trace, in order. -/
def requests (t : List Event) : List NetReq :=
  t.filterMap fun e => match e with
    | Event.call req _ => some req
    | _ => none

/-- The operations invoked in a trace, in order. -/
def invoked (t : List Event) : List Op :=
  t.filterMap fun e => match e with
    | Event.invoke op => some op
    | _ => none

/-- The texts printed in a trace, in order. -/
def printed (t : List Event) : List String :=
  t.filterMap fun e => match e with
    | Event.print s => some s
    | _ => none

/-- The handles of the response bodies opened in a trace. -/
def opened (t : List Event) : List Nat :=
  t.filterMap fun e => match e with
    | Event.call _ (some h) => some h
    | _ => none

/-- The handles on which `Close` was called in a trace, one entry per call. -/
def closed (t : List Event) : List Nat :=
  t.filterMap fun e => match e with
    | Event.close h => some h
    | _ => none

/-- Whether a request changes the engine: index creation or document write. -/
def NetReq.isMutating : NetReq → Bool
  | NetReq.indicesCreate _ _ => true
  | NetReq.index _ _ _ _ => true
  | _ => false

/-- Whether a request is a create-index request. -/
def NetReq.isCreate : NetReq → Bool
  | NetReq.indicesCreate _ _ => true
  | _ => false

/-- Whether a request is a search request. -/
def NetReq.isSearch : NetReq → Bool
  | NetReq.search _ _ => true
  | _ => false

/-- The write request `crawl` is expected to issue for the record `p` at
position `i`: document ID the decimal rendering of `p.ID`, body the record
with the localized body `japaneseBodies[i mod 10]`, refresh requested. -/
def expectedWrite (L : Lib) (i : Nat) (p : Post) : NetReq :=
  NetReq.index indexName (toString p.ID)
    (L.jsonMarshal { ID := p.ID, Title := p.Title, Body := p.Body,
                     JapanseBody := japaneseBodies.getD (i % 10) "" })
    "true"

/-- State of the reference engine: the indices that exist and the documents
stored in them by document ID, newest first. -/
structure Store where
  indices : List String
  docs : List (String × String)
  deriving DecidableEq, Repr

/-- The empty engine: no index, no document. -/
def Store.empty : Store := { indices := [], docs := [] }

/-- A reference engine over `Store`: the existence check answers 404 exactly
when an index is missing, creating a missing index succeeds and makes it
present, a write stores the body under its document ID, get-by-ID answers 404
exactly when no document has the ID, the feed endpoint serves `feedBody`, and
every `Close` succeeds. -/
def storeNet (feedBody : String) : Net Store where
  roundTrip s req :=
    match req with
    | NetReq.indicesExists ix =>
      (s, Except.ok { StatusCode := if ix.all (fun i => s.indices.contains i) then 200 else 404,
                      Body := "" })
    | NetReq.indicesCreate ix _ =>
      if s.indices.contains ix then
        (s, Except.ok { StatusCode := 400, Body := "resource_already_exists_exception" })
      else
        ({ s with indices := ix :: s.indices }, Except.ok { StatusCode := 200, Body := "" })
    | NetReq.get _ id =>
      match s.docs.lookup id with
      | some b => (s, Except.ok { StatusCode := 200, Body := b })
      | none => (s, Except.ok { StatusCode := 404, Body := "" })
    | NetReq.httpGet _ => (s, Except.ok { StatusCode := 200, Body := feedBody })
    | NetReq.index _ id b _ =>
      ({ s with docs := (id, b) :: s.docs }, Except.ok { StatusCode := 201, Body := "" })
    | NetReq.search _ _ => (s, Except.ok { StatusCode := 200, Body := "" })
  closeBody s _ := (s, none)

/-- A scripted environment: the replies to the successive requests are read
off a list (a transport error once the list is exhausted); every `Close`
succeeds. -/
def scriptNet : Net (List (Except String Response)) where
  roundTrip s _ :=
    match s with
    | [] => ([], Except.error "connection refused")
    | reply :: rest => (rest, reply)
  closeBody s _ := (s, none)

/-- A scripted environment in which every `Close` fails. -/
def brokenCloseNet : Net (List (Except String Response)) where
  roundTrip s _ :=
    match s with
    | [] => ([], Except.error "connection refused")
    | reply :: rest => (rest, reply)
  closeBody s _ := (s, some "close failed")

/-- Library stand-ins for closed instances: the feed decoder yields `feed`
whatever the text, the search decoder yields `hits`, a `_source` decodes to the
post whose title it is unless it is empty. -/
def fixtureLib (feed : List Post) (hits : List RawMessage) : Lib where
  jsonMarshal p := toString p.ID ++ "|" ++ p.Title ++ "|" ++ p.Body ++ "|" ++ p.JapanseBody
  decodePosts _ := Except.ok feed
  decodeSearchResponse _ := Except.ok { Hits := hits }
  unmarshalPost raw :=
    if raw = "" then Except.error "unexpected end of JSON input"
    else Except.ok { ID := raw.length, Title := raw, Body := "", JapanseBody := "" }
  responseString r := "[" ++ toString r.StatusCode ++ "] " ++ r.Body
  newClient := none

/-- The two-record feed of the end-to-end scenario. -/
def sampleFeed : List Post :=
  [ { ID := 1, Title := "a", Body := "b", JapanseBody := "" },
    { ID := 2, Title := "c", Body := "d", JapanseBody := "" } ]

/-- An engine model for index existence, relative to a predicate `present` on
engine states: the existence check for "posts" always gets a response whose
status is not-found exactly when the index is absent, and does not change
presence; creating the absent index succeeds and makes it present; `Close`
succeeds and does not change presence. -/
structure IndexModel (E : Net σ) (present : σ → Prop) : Prop where
  exists_status : ∀ s, ∃ resp,
    (E.roundTrip s (NetReq.indicesExists [indexName])).2 = Except.ok resp ∧
      (resp.StatusCode = StatusNotFound ↔ ¬ present s)
  exists_keeps : ∀ s, present (E.roundTrip s (NetReq.indicesExists [indexName])).1 ↔ present s
  create_succeeds : ∀ s body, ¬ present s → ∃ resp,
    (E.roundTrip s (NetReq.indicesCreate indexName body)).2 = Except.ok resp ∧
      resp.IsError = false ∧
      present (E.roundTrip s (NetReq.indicesCreate indexName body)).1
  close_keeps : ∀ s h, present (E.closeBody s h).1 ↔ present s
  close_succeeds : ∀ s h, (E.closeBody s h).2 = none

/-- A string with no double-quote character and no backslash. -/
def Unquoted (s : String) : Prop :=
  Char.ofNat 34 ∉ s.data ∧ Char.ofNat 92 ∉ s.data

/-- The engine model in the words of the provisioning property, and no more:
the existence check for "posts" gets a response whose status is not-found
exactly when the index is absent, and a create request that gets a non-error
response makes the index present.  Nothing is said about `Close`, nor about
whether creating an absent index succeeds. -/
structure StatedIndexModel (E : Net σ) (present : σ → Prop) : Prop where
  exists_status : ∀ s, ∃ resp,
    (E.roundTrip s (NetReq.indicesExists [indexName])).2 = Except.ok resp ∧
      (resp.StatusCode = StatusNotFound ↔ ¬ present s)
  create_present : ∀ s body resp,
    (E.roundTrip s (NetReq.indicesCreate indexName body)).2 = Except.ok resp →
      resp.IsError = false → present (E.roundTrip s (NetReq.indicesCreate indexName body)).1

/-- The reference engine with a `Close` that always fails. -/
def failingCloseNet (feedBody : String) : Net Store where
  roundTrip := (storeNet feedBody).roundTrip
  closeBody s _ := (s, some "close failed")

/-- The reference engine with index creation refused: every create request is
answered with status 503 and changes nothing. -/
def rejectingCreateNet (feedBody : String) : Net Store where
  roundTrip s req :=
    match req with
    | NetReq.indicesCreate _ _ =>
      (s, Except.ok { StatusCode := 503, Body := "unavailable" })
    | other => (storeNet feedBody).roundTrip s other
  closeBody s _ := (s, none)

/-- The reference engine state in which the index "posts" exists and holds no
document. -/
def Store.withIndex : Store := { indices := [indexName], docs := [] }

/-! ## Basic facts about traces and the primitives -/

theorem requests_append (a b : List Event) : requests (a ++ b) = requests a ++ requests b := by
  simp [requests, List.filterMap_append]

theorem invoked_append (a b : List Event) : invoked (a ++ b) = invoked a ++ invoked b := by
  simp [invoked, List.filterMap_append]

theorem printed_append (a b : List Event) : printed (a ++ b) = printed a ++ printed b := by
  simp [printed, List.filterMap_append]

theorem errorsJoin_some_ne_none (a : Option Err) (e : Err) : errorsJoin a (some e) ≠ none := by
  cases a <;> simp [errorsJoin]

/-- A deferred close adds one `close` event and nothing else to the trace. -/
theorem closeDeferred_trace (E : Net σ) (h : Nat) (r : World σ × Option Err) :
    (closeDeferred E h r).1.trace = r.1.trace ++ [Event.close h] := by
  unfold closeDeferred
  rcases E.closeBody r.1.engine h with ⟨s, _ | e⟩ <;> rfl

theorem closeDeferred_engine (E : Net σ) (h : Nat) (r : World σ × Option Err) :
    (closeDeferred E h r).1.engine = (E.closeBody r.1.engine h).1 := by
  unfold closeDeferred
  rcases E.closeBody r.1.engine h with ⟨s, _ | e⟩ <;> rfl

/-- A deferred close never turns an error into success. -/
theorem closeDeferred_ne_none (E : Net σ) (h : Nat) (r : World σ × Option Err)
    (hr : r.2 ≠ none) : (closeDeferred E h r).2 ≠ none := by
  unfold closeDeferred
  rcases E.closeBody r.1.engine h with ⟨s, _ | e⟩
  · exact hr
  · exact errorsJoin_some_ne_none _ _

/-- A deferred close that succeeds leaves the result as it was. -/
theorem closeDeferred_result_ok (E : Net σ) (h : Nat) (r : World σ × Option Err)
    (hc : (E.closeBody r.1.engine h).2 = none) : (closeDeferred E h r).2 = r.2 := by
  unfold closeDeferred
  rcases hcb : E.closeBody r.1.engine h with ⟨s, _ | e⟩
  · rfl
  · rw [hcb] at hc; cases hc

/-- A successful result after a deferred close means the result before it was
successful and the close reported no error. -/
theorem closeDeferred_eq_none (E : Net σ) (h : Nat) (r : World σ × Option Err)
    (hr : (closeDeferred E h r).2 = none) :
    r.2 = none ∧ (E.closeBody r.1.engine h).2 = none := by
  unfold closeDeferred at hr
  rcases hcb : E.closeBody r.1.engine h with ⟨s, _ | e⟩
  · rw [hcb] at hr; exact ⟨hr, rfl⟩
  · rw [hcb] at hr; exact absurd hr (errorsJoin_some_ne_none _ _)

/-- After a successful body, the result of the function is success exactly
when the deferred close reports no error. -/
theorem closeDeferred_none_iff (E : Net σ) (h : Nat) (r : World σ × Option Err)
    (hr : r.2 = none) :
    (closeDeferred E h r).2 = none ↔ (E.closeBody r.1.engine h).2 = none :=
  ⟨fun hn => (closeDeferred_eq_none E h r hn).2,
   fun hc => (closeDeferred_result_ok E h r hc).trans hr⟩

theorem perform_trace (E : Net σ) (req : NetReq) (w : World σ) :
    ∃ h, (perform E req w).1.trace = w.trace ++ [Event.call req h] := by
  unfold perform
  rcases E.roundTrip w.engine req with ⟨s, e | resp⟩
  · exact ⟨none, rfl⟩
  · exact ⟨some w.trace.length, rfl⟩

theorem perform_requests (E : Net σ) (req : NetReq) (w : World σ) :
    requests (perform E req w).1.trace = requests w.trace ++ [req] := by
  obtain ⟨h, hh⟩ := perform_trace E req w
  rw [hh, requests_append]; rfl

theorem perform_engine (E : Net σ) (req : NetReq) (w : World σ) :
    (perform E req w).1.engine = (E.roundTrip w.engine req).1 := by
  unfold perform
  rcases E.roundTrip w.engine req with ⟨s, e | resp⟩ <;> rfl

theorem japaneseBodies_get (i : Nat) (h : i % 10 < japaneseBodies.length) :
    japaneseBodies.get ⟨i % 10, h⟩ = japaneseBodies.getD (i % 10) "" := by
  rw [List.get_eq_getElem, List.getD_eq_getElem _ _ h]

/-! ## The ingestion loop -/

theorem requests_call (req : NetReq) (h : Option Nat) : requests [Event.call req h] = [req] := rfl
theorem requests_drain (h : Nat) : requests [Event.drain h] = [] := rfl
theorem requests_close (h : Nat) : requests [Event.close h] = [] := rfl
theorem requests_log (s : String) : requests [Event.log s] = [] := rfl
theorem requests_print (s : String) : requests [Event.print s] = [] := rfl
theorem requests_invoke (op : Op) : requests [Event.invoke op] = [] := rfl

theorem indexPost_request_eq (L : Lib) (i : Nat) (p : Post) :
    NetReq.index indexName (toString p.ID)
      (L.jsonMarshal { p with JapanseBody := japaneseBodies.get ⟨i % 10, Nat.mod_lt i (by decide)⟩ })
      "true" = expectedWrite L i p := by
  unfold expectedWrite
  rw [japaneseBodies_get]

/-- The run of `prepare` when the existence check gets a response other than
not-found: log, one deferred close, no further request. -/
theorem prepare_of_found (L : Lib) (E : Net σ) (s s1 : σ) (resp : Response)
    (hex : E.roundTrip s (NetReq.indicesExists [indexName]) = (s1, Except.ok resp))
    (hst : resp.StatusCode ≠ StatusNotFound) :
    prepare L E ⟨s, []⟩ =
      closeDeferred E 1
        (⟨s1, [Event.invoke Op.prepare, Event.call (NetReq.indicesExists [indexName]) (some 1),
               Event.drain 1, Event.log "Index already exists"]⟩, none) := by
  simp [prepare, perform, World.emit, hex, hst]

/-- The run of `prepare` when the existence check answers not-found and the
create request gets a non-error response: both deferred closes are applied to
handle 1, the body of the existence check; handle 3, the body of the create
response, is not closed. -/
theorem prepare_of_created (L : Lib) (E : Net σ) (s s1 s2 : σ) (resp rez : Response)
    (hex : E.roundTrip s (NetReq.indicesExists [indexName]) = (s1, Except.ok resp))
    (hst : resp.StatusCode = StatusNotFound)
    (hcr : E.roundTrip s1 (NetReq.indicesCreate indexName mapping) = (s2, Except.ok rez))
    (hok : rez.IsError = false) :
    prepare L E ⟨s, []⟩ =
      closeDeferred E 1 (closeDeferred E 1
        (⟨s2, [Event.invoke Op.prepare, Event.call (NetReq.indicesExists [indexName]) (some 1),
               Event.drain 1, Event.call (NetReq.indicesCreate indexName mapping) (some 3),
               Event.drain 1]⟩, none)) := by
  simp [prepare, perform, World.emit, hex, hst, hcr, hok]

/-- The requests of `prepare`: the existence check, followed by one create
request with the fixed mapping exactly when the check answered not-found. -/
theorem prepare_requests (L : Lib) (E : Net σ) (w : World σ) :
    requests (prepare L E w).1.trace = requests w.trace ++
      match (E.roundTrip w.engine (NetReq.indicesExists [indexName])).2 with
      | Except.error _ => [NetReq.indicesExists [indexName]]
      | Except.ok resp =>
        if resp.StatusCode = StatusNotFound then
          [NetReq.indicesExists [indexName], NetReq.indicesCreate indexName mapping]
        else [NetReq.indicesExists [indexName]] := by
  unfold prepare perform
  rcases hex : E.roundTrip (w.emit (Event.invoke Op.prepare)).engine
      (NetReq.indicesExists [indexName]) with ⟨s1, e | resp⟩
  · have hex2 : E.roundTrip w.engine (NetReq.indicesExists [indexName]) = (s1, Except.error e) := hex
    simp [hex2, World.emit, requests_append, requests]
  · have hex2 : E.roundTrip w.engine (NetReq.indicesExists [indexName]) = (s1, Except.ok resp) := hex
    simp only [hex2, closeDeferred_trace, requests_append, requests_close, List.append_nil]
    by_cases hst : resp.StatusCode = StatusNotFound
    · simp only [hst, ne_eq, not_true_eq_false, if_false, if_true]
      rcases hcr : E.roundTrip s1 (NetReq.indicesCreate indexName mapping) with ⟨s2, e | rez⟩
      · simp [World.emit, hcr, requests_append, requests, requests_drain]
      · by_cases hre : rez.IsError = true
        · simp [World.emit, hcr, hre, requests_append, requests,
            requests_drain]
        · simp [World.emit, hcr, hre, requests_append, requests,
            requests_drain, closeDeferred_trace, requests_close]
    · simp [hst, World.emit, requests_append, requests, requests_drain,
        requests_log]

theorem pair_eta {α β : Type} (x : α × β) (b : β) (h : x.2 = b) : x = (x.1, b) := by
  cases x; cases h; rfl

/-- In an index model, `prepare` on an absent index issues the existence check
and one create request, returns success and leaves the index present. -/
theorem prepare_absent (L : Lib) (E : Net σ) (present : σ → Prop) (hm : IndexModel E present)
    (s : σ) (habs : ¬ present s) :
    requests (prepare L E ⟨s, []⟩).1.trace =
        [NetReq.indicesExists [indexName], NetReq.indicesCreate indexName mapping] ∧
      (prepare L E ⟨s, []⟩).2 = none ∧ present (prepare L E ⟨s, []⟩).1.engine := by
  obtain ⟨resp, hresp, hiff⟩ := hm.exists_status s
  have hst : resp.StatusCode = StatusNotFound := hiff.mpr habs
  have hex := pair_eta _ _ hresp
  have habs1 : ¬ present (E.roundTrip s (NetReq.indicesExists [indexName])).1 :=
    fun h => habs ((hm.exists_keeps s).mp h)
  obtain ⟨rez, hrez, hok, hpres⟩ := hm.create_succeeds _ mapping habs1
  have hcr := pair_eta _ _ hrez
  have hrun := prepare_of_created L E s _ _ resp rez hex hst hcr hok
  refine ⟨?_, ?_, ?_⟩
  · have := prepare_requests L E ⟨s, []⟩
    simp only [hresp, hst, if_true] at this
    simpa [requests] using this
  · rw [hrun, closeDeferred_result_ok _ _ _ (hm.close_succeeds _ _),
      closeDeferred_result_ok _ _ _ (hm.close_succeeds _ _)]
  · rw [hrun, closeDeferred_engine, closeDeferred_engine]
    exact (hm.close_keeps _ _).mpr ((hm.close_keeps _ _).mpr hpres)

/-- In an index model, `prepare` on a present index issues the existence check
only and returns success. -/
theorem prepare_present (L : Lib) (E : Net σ) (present : σ → Prop) (hm : IndexModel E present)
    (s : σ) (hpres : present s) :
    requests (prepare L E ⟨s, []⟩).1.trace = [NetReq.indicesExists [indexName]] ∧
      (prepare L E ⟨s, []⟩).2 = none := by
  obtain ⟨resp, hresp, hiff⟩ := hm.exists_status s
  have hst : resp.StatusCode ≠ StatusNotFound := fun h => (hiff.mp h) hpres
  have hex := pair_eta _ _ hresp
  have hrun := prepare_of_found L E s _ resp hex hst
  refine ⟨?_, ?_⟩
  · have := prepare_requests L E ⟨s, []⟩
    simp only [hresp, hst, if_false] at this
    simpa [requests] using this
  · rw [hrun, closeDeferred_result_ok _ _ _ (hm.close_succeeds _ _)]

/-- The reference engine is an index model for "the index posts is listed". -/
theorem storeNet_indexModel (feedBody : String) :
    IndexModel (storeNet feedBody) (fun s => indexName ∈ s.indices) where
  exists_status s := by
    by_cases h : indexName ∈ s.indices <;> simp [storeNet, h, StatusNotFound]
  exists_keeps s := by simp [storeNet]
  create_succeeds s body h := by
    simp [storeNet, h, Response.IsError]
  close_keeps s h := by simp [storeNet]
  close_succeeds s h := rfl

/-- The reference engine with a failing `Close` satisfies the stated model. -/
theorem failingCloseNet_stated (feedBody : String) :
    StatedIndexModel (failingCloseNet feedBody) (fun s => indexName ∈ s.indices) where
  exists_status s := by
    by_cases h : indexName ∈ s.indices <;>
      simp [failingCloseNet, storeNet, h, StatusNotFound]
  create_present s body resp := by
    by_cases h : indexName ∈ s.indices
    · intro _ _; simp [failingCloseNet, storeNet, h]
    · intro _ _; simp [failingCloseNet, storeNet, h]

/-- The reference engine that refuses index creation satisfies the stated
model: it never answers a create request with a non-error status. -/
theorem rejectingCreateNet_stated (feedBody : String) :
    StatedIndexModel (rejectingCreateNet feedBody) (fun s => indexName ∈ s.indices) where
  exists_status s := by
    by_cases h : indexName ∈ s.indices <;>
      simp [rejectingCreateNet, storeNet, h, StatusNotFound]
  create_present s body resp := by
    intro hresp hok
    simp only [rejectingCreateNet] at hresp
    cases hresp
    simp [Response.IsError] at hok

/-! ## The marker document -/

/-- All hits unmarshal exactly when the loop returns the documents, in hit
order. -/
theorem unmarshalHits_eq_ok (L : Lib) (hits : List RawMessage) (posts : List Post) :
    unmarshalHits L hits = Except.ok posts ↔
      hits.map L.unmarshalPost = posts.map Except.ok := by
  induction hits generalizing posts with
  | nil =>
    cases posts <;> simp [unmarshalHits]
  | cons hit hits ih =>
    unfold unmarshalHits
    rcases hu : L.unmarshalPost hit with e | p
    · cases posts <;> simp [hu]
    · rcases hrest : unmarshalHits L hits with e | ps
      · cases posts with
        | nil => simp
        | cons q qs =>
          have hne : ¬ List.map L.unmarshalPost hits = List.map Except.ok qs :=
            fun h => by have := (ih qs).mpr h; rw [hrest] at this; cases this
          simp [hu, hne]
      · have hps := (ih ps).mp hrest
        cases posts with
        | nil => simp
        | cons q qs =>
          simp only [Except.ok.injEq, List.cons.injEq, List.map_cons, hu]
          constructor
          · rintro ⟨rfl, rfl⟩; exact ⟨rfl, hps⟩
          · rintro ⟨hq, hqs⟩
            have := (ih qs).mpr hqs
            rw [hrest] at this
            exact ⟨hq, Except.ok.inj this⟩

/-- A hit that does not unmarshal makes the loop return an error. -/
theorem unmarshalHits_error (L : Lib) (hits : List RawMessage) (hit : RawMessage) (e : String)
    (hmem : hit ∈ hits) (herr : L.unmarshalPost hit = Except.error e) :
    ∃ e', unmarshalHits L hits = Except.error e' := by
  induction hits with
  | nil => cases hmem
  | cons h hs ih =>
    unfold unmarshalHits
    rcases hu : L.unmarshalPost h with e1 | p
    · exact ⟨e1, rfl⟩
    · rcases List.mem_cons.mp hmem with rfl | hin
      · rw [herr] at hu; cases hu
      · obtain ⟨e', he'⟩ := ih hin
        exact ⟨e', by simp [he']⟩

theorem printed_foldl_emit (posts : List Post) (w : World σ) :
    printed (posts.foldl (fun acc p => acc.emit (Event.print (toString p.ID ++ "\n"))) w).trace =
      printed w.trace ++ posts.map (fun p => toString p.ID ++ "\n") := by
  induction posts generalizing w with
  | nil => simp
  | cons p ps ih =>
    rw [List.foldl_cons, ih]
    simp [World.emit, printed_append, printed]

/-- Printing does not touch the engine. -/
theorem printPosts_engine (posts : List Post) (w : World σ) :
    (printPosts posts w).engine = w.engine := by
  unfold printPosts
  have : ∀ (ps : List Post) (v : World σ),
      (ps.foldl (fun acc p => acc.emit (Event.print (toString p.ID ++ "\n"))) v).engine
        = v.engine := by
    intro ps
    induction ps with
    | nil => intro v; rfl
    | cons p ps ih => intro v; rw [List.foldl_cons, ih]; rfl
  rw [this]
  rfl

/-- What `printPosts` prints: the count line, then one line per document. -/
theorem printed_printPosts (posts : List Post) (w : World σ) :
    printed (printPosts posts w).trace = printed w.trace ++
      ("matched " ++ toString posts.length ++ " posts\n") ::
        posts.map (fun p => toString p.ID ++ "\n") := by
  unfold printPosts
  rw [printed_foldl_emit]
  simp [World.emit, printed_append, printed]

/-- The run of `search` from an empty trace when the engine sends a response:
everything after the call happens under one deferred close of handle 1. -/
theorem search_of_response (L : Lib) (E : Net σ) (s s1 : σ) (key val : String) (resp : Response)
    (hreply : E.roundTrip s (NetReq.search indexName (searchQuery key val)) =
      (s1, Except.ok resp)) :
    search L E key val ⟨s, []⟩ =
      closeDeferred E 1
        (if resp.IsError then
          (⟨s1, [Event.invoke (Op.search key val),
                 Event.call (NetReq.search indexName (searchQuery key val)) (some 1)]⟩,
            some (Err.errorf ("Error: " ++ L.responseString resp)))
        else
          match L.decodeSearchResponse resp.Body with
          | Except.error e =>
            (⟨s1, [Event.invoke (Op.search key val),
                   Event.call (NetReq.search indexName (searchQuery key val)) (some 1)]⟩,
              some (Err.ext e))
          | Except.ok sr =>
            match unmarshalHits L sr.Hits with
            | Except.error e =>
              (⟨s1, [Event.invoke (Op.search key val),
                     Event.call (NetReq.search indexName (searchQuery key val)) (some 1)]⟩,
                some (Err.ext e))
            | Except.ok posts =>
              (printPosts posts
                ⟨s1, [Event.invoke (Op.search key val),
                      Event.call (NetReq.search indexName (searchQuery key val)) (some 1)]⟩,
                none)) := by
  simp [search, perform, World.emit, hreply]

theorem printed_close (t : List Event) (h : Nat) : printed (t ++ [Event.close h]) = printed t := by
  simp [printed_append, printed]

/-! ## The query text -/

/-- Two texts that agree and in which the first occurrence of `c` is marked
have the same part before the mark and the same part after it. -/
theorem append_mark_inj (c : Char) (a b r1 r2 : List Char) (ha : c ∉ a) (hb : c ∉ b)
    (h : a ++ c :: r1 = b ++ c :: r2) : a = b ∧ r1 = r2 := by
  induction a generalizing b with
  | nil =>
    cases b with
    | nil => simpa using h
    | cons y b =>
      simp only [List.nil_append, List.cons_append, List.cons.injEq] at h
      exact absurd (h.1 ▸ List.mem_cons_self y b) hb
  | cons x a ih =>
    cases b with
    | nil =>
      simp only [List.nil_append, List.cons_append, List.cons.injEq] at h
      exact absurd (h.1 ▸ List.mem_cons_self x a) ha
    | cons y b =>
      simp only [List.cons_append, List.cons.injEq] at h
      obtain ⟨hab, hrest⟩ := ih b (fun hm => ha (List.mem_cons_of_mem _ hm))
        (fun hm => hb (List.mem_cons_of_mem _ hm)) h.2
      exact ⟨by rw [h.1, hab], hrest⟩

/-- The characters of the query text: the opening of the template, the key, a
double quote followed by `: "`, the value, and the closing of the template. -/
theorem searchQuery_data (key val : String) :
    (searchQuery key val).data =
      ("\x7b\"query\": \x7b\"match\": \x7b\"").data ++
        (key.data ++ Char.ofNat 34 :: ([':', ' ', Char.ofNat 34] ++
          (val.data ++ ("\"\x7d\x7d\x7d").data))) := by
  unfold searchQuery
  simp only [String.data_append, List.append_assoc]
  rfl

/-- The query text determines key and value when the key has no double quote. -/
theorem searchQuery_injective (k1 v1 k2 v2 : String)
    (h1 : Char.ofNat 34 ∉ k1.data) (h2 : Char.ofNat 34 ∉ k2.data)
    (h : searchQuery k1 v1 = searchQuery k2 v2) : k1 = k2 ∧ v1 = v2 := by
  have hd := congrArg String.data h
  rw [searchQuery_data, searchQuery_data] at hd
  have hd1 := List.append_cancel_left hd
  obtain ⟨hk, hrest⟩ := append_mark_inj _ _ _ _ _ h1 h2 hd1
  have hv := List.append_cancel_right (List.append_cancel_left hrest)
  exact ⟨String.ext hk, String.ext hv⟩

theorem requests_foldl_emit (posts : List Post) (w : World σ) :
    requests (posts.foldl (fun acc p => acc.emit (Event.print (toString p.ID ++ "\n"))) w).trace =
      requests w.trace := by
  induction posts generalizing w with
  | nil => rfl
  | cons p ps ih =>
    rw [List.foldl_cons, ih]
    simp [World.emit, requests_append, requests]

theorem requests_printPosts (posts : List Post) (w : World σ) :
    requests (printPosts posts w).trace = requests w.trace := by
  unfold printPosts
  rw [requests_foldl_emit]
  simp [World.emit, requests_append, requests]

/-- Whatever the outcome, `search` issues exactly one request: the search
request on "posts" whose body is the query text. -/
theorem search_requests (L : Lib) (E : Net σ) (key val : String) (w : World σ) :
    requests (search L E key val w).1.trace =
      requests w.trace ++ [NetReq.search indexName (searchQuery key val)] := by
  have hp := perform_requests E (NetReq.search indexName (searchQuery key val))
    (w.emit (Event.invoke (Op.search key val)))
  have hw : requests (w.emit (Event.invoke (Op.search key val))).trace = requests w.trace := by
    simp [World.emit, requests_append, requests]
  rw [hw] at hp
  rcases hpf : perform E (NetReq.search indexName (searchQuery key val))
    (w.emit (Event.invoke (Op.search key val))) with ⟨w1, e | ⟨res, resp⟩⟩
  · rw [hpf] at hp
    simp only [search, hpf]
    exact hp
  · rw [hpf] at hp
    simp only [search, hpf, closeDeferred_trace, requests_append, requests_close,
      List.append_nil]
    split
    · exact hp
    · split
      · exact hp
      · split
        · exact hp
        · rw [requests_printPosts]; exact hp

/-! ## Which operations a run invokes -/

theorem invoked_perform (E : Net σ) (req : NetReq) (w : World σ) :
    invoked (perform E req w).1.trace = invoked w.trace := by
  obtain ⟨h, hh⟩ := perform_trace E req w
  rw [hh, invoked_append]
  simp [invoked]

theorem invoked_closeDeferred (E : Net σ) (h : Nat) (r : World σ × Option Err) :
    invoked (closeDeferred E h r).1.trace = invoked r.1.trace := by
  rw [closeDeferred_trace, invoked_append]
  simp [invoked]

theorem invoked_emit_invoke (w : World σ) (op : Op) :
    invoked (w.emit (Event.invoke op)).trace = invoked w.trace ++ [op] := by
  simp [World.emit, invoked_append, invoked]

theorem invoked_emit_drain (w : World σ) (h : Nat) :
    invoked (w.emit (Event.drain h)).trace = invoked w.trace := by
  simp [World.emit, invoked_append, invoked]

theorem invoked_emit_log (w : World σ) (line : String) :
    invoked (w.emit (Event.log line)).trace = invoked w.trace := by
  simp [World.emit, invoked_append, invoked]

theorem invoked_emit_print (w : World σ) (text : String) :
    invoked (w.emit (Event.print text)).trace = invoked w.trace := by
  simp [World.emit, invoked_append, invoked]

/-- The operations `prepare` adds to the trace: itself, once. -/
theorem invoked_prepare (L : Lib) (E : Net σ) (w : World σ) :
    invoked (prepare L E w).1.trace = invoked w.trace ++ [Op.prepare] := by
  have hp := invoked_perform E (NetReq.indicesExists [indexName])
    (w.emit (Event.invoke Op.prepare))
  rw [invoked_emit_invoke] at hp
  unfold prepare
  rcases hpf : perform E (NetReq.indicesExists [indexName]) (w.emit (Event.invoke Op.prepare))
    with ⟨w1, e | ⟨res, resp⟩⟩
  · rw [hpf] at hp; exact hp
  · rw [hpf] at hp
    simp only [invoked_closeDeferred]
    split
    · simp only [invoked_emit_log, invoked_emit_drain]; exact hp
    · have hc := invoked_perform E (NetReq.indicesCreate indexName mapping)
        (w1.emit (Event.drain res))
      rw [invoked_emit_drain] at hc
      rcases hcf : perform E (NetReq.indicesCreate indexName mapping) (w1.emit (Event.drain res))
        with ⟨w2, e | ⟨rez, rezResp⟩⟩
      · rw [hcf] at hc; simp only; rw [hc]; exact hp
      · rw [hcf] at hc
        simp only
        split
        · rw [hc]; exact hp
        · simp only [invoked_closeDeferred, invoked_emit_drain]; rw [hc]; exact hp

theorem invoked_indexPost (L : Lib) (E : Net σ) (i : Nat) (p : Post) (w : World σ) :
    invoked (indexPost L E i p w).1.trace = invoked w.trace := by
  unfold indexPost
  simp only [indexPost_request_eq]
  have hp := invoked_perform E (expectedWrite L i p) w
  rcases hpf : perform E (expectedWrite L i p) w with ⟨w1, e | ⟨res, resp⟩⟩
  · rw [hpf] at hp; exact hp
  · rw [hpf] at hp
    simp only [invoked_closeDeferred]
    split <;> simp only [invoked_emit_drain] <;> exact hp

theorem invoked_crawlLoop (L : Lib) (E : Net σ) (ps : List Post) (i : Nat) (w : World σ) :
    invoked (crawlLoop L E i ps w).1.trace = invoked w.trace := by
  induction ps generalizing i w with
  | nil => rfl
  | cons p ps ih =>
    have hp := invoked_indexPost L E i p w
    rcases hip : indexPost L E i p w with ⟨w1, _ | e⟩
    · rw [hip] at hp
      simp only [crawlLoop, hip]
      rw [ih, hp]
    · rw [hip] at hp
      simp only [crawlLoop, hip]
      exact hp

/-- The operations `crawl` adds to the trace: itself, once. -/
theorem invoked_crawl (L : Lib) (E : Net σ) (w : World σ) :
    invoked (crawl L E w).1.trace = invoked w.trace ++ [Op.crawl] := by
  have hp := invoked_perform E (NetReq.get indexName firstID) (w.emit (Event.invoke Op.crawl))
  rw [invoked_emit_invoke] at hp
  unfold crawl
  rcases hpf : perform E (NetReq.get indexName firstID) (w.emit (Event.invoke Op.crawl))
    with ⟨w1, e | ⟨res, resp⟩⟩
  · rw [hpf] at hp; exact hp
  · rw [hpf] at hp
    simp only [invoked_closeDeferred]
    split
    · simp only [invoked_emit_log, invoked_emit_drain]; exact hp
    · have hc := invoked_perform E (NetReq.httpGet crawlURL) (w1.emit (Event.drain res))
      rw [invoked_emit_drain] at hc
      rcases hcf : perform E (NetReq.httpGet crawlURL) (w1.emit (Event.drain res))
        with ⟨w2, e | ⟨rez, rezResp⟩⟩
      · rw [hcf] at hc; simp only; rw [hc]; exact hp
      · rw [hcf] at hc
        simp only [invoked_closeDeferred]
        split
        · rw [hc]; exact hp
        · rw [invoked_crawlLoop, hc]; exact hp

theorem invoked_printPosts (posts : List Post) (w : World σ) :
    invoked (printPosts posts w).trace = invoked w.trace := by
  unfold printPosts
  have : ∀ (ps : List Post) (w : World σ),
      invoked (ps.foldl (fun acc p => acc.emit (Event.print (toString p.ID ++ "\n"))) w).trace
        = invoked w.trace := by
    intro ps
    induction ps with
    | nil => intro w; rfl
    | cons p ps ih => intro w; rw [List.foldl_cons, ih, invoked_emit_print]
  rw [this, invoked_emit_print]

/-- The operations `search` adds to the trace: itself, once, with its
arguments. -/
theorem invoked_search (L : Lib) (E : Net σ) (key val : String) (w : World σ) :
    invoked (search L E key val w).1.trace = invoked w.trace ++ [Op.search key val] := by
  have hp := invoked_perform E (NetReq.search indexName (searchQuery key val))
    (w.emit (Event.invoke (Op.search key val)))
  rw [invoked_emit_invoke] at hp
  rcases hpf : perform E (NetReq.search indexName (searchQuery key val))
    (w.emit (Event.invoke (Op.search key val))) with ⟨w1, e | ⟨res, resp⟩⟩
  · rw [hpf] at hp
    simp only [search, hpf]
    exact hp
  · rw [hpf] at hp
    simp only [search, hpf, invoked_closeDeferred]
    split
    · exact hp
    · split
      · exact hp
      · split
        · exact hp
        · rw [invoked_printPosts]; exact hp

/-! ## Errors of the operations are never `errors.New` values -/

theorem closeDeferred_ne_new (E : Net σ) (h : Nat) (r : World σ × Option Err)
    (hr : ∀ t, r.2 ≠ some (Err.new t)) (t : String) :
    (closeDeferred E h r).2 ≠ some (Err.new t) := by
  unfold closeDeferred
  rcases E.closeBody r.1.engine h with ⟨s, _ | e⟩
  · exact hr t
  · rcases r with ⟨w, _ | e0⟩ <;> simp [errorsJoin]

theorem prepare_ne_new (L : Lib) (E : Net σ) (w : World σ) (t : String) :
    (prepare L E w).2 ≠ some (Err.new t) := by
  unfold prepare perform
  rcases E.roundTrip (w.emit (Event.invoke Op.prepare)).engine
    (NetReq.indicesExists [indexName]) with ⟨s1, e | resp⟩
  · simp
  · simp only
    apply closeDeferred_ne_new
    intro t
    split
    · simp
    · rcases E.roundTrip _ (NetReq.indicesCreate indexName mapping) with ⟨s2, e | rez⟩
      · simp
      · simp only
        split
        · simp
        · apply closeDeferred_ne_new
          intro t; simp

theorem indexPost_ne_new (L : Lib) (E : Net σ) (i : Nat) (p : Post) (w : World σ) (t : String) :
    (indexPost L E i p w).2 ≠ some (Err.new t) := by
  unfold indexPost perform
  simp only
  rcases E.roundTrip w.engine _ with ⟨s1, e | resp⟩
  · simp
  · simp only
    apply closeDeferred_ne_new
    intro t
    split <;> simp

theorem crawlLoop_ne_new (L : Lib) (E : Net σ) (ps : List Post) (i : Nat) (w : World σ)
    (t : String) : (crawlLoop L E i ps w).2 ≠ some (Err.new t) := by
  induction ps generalizing i w with
  | nil => simp [crawlLoop]
  | cons p ps ih =>
    have hp := indexPost_ne_new L E i p w t
    rcases hip : indexPost L E i p w with ⟨w1, _ | e⟩
    · simp only [crawlLoop, hip]
      exact ih (i + 1) w1
    · rw [hip] at hp
      simp only [crawlLoop, hip]
      exact hp

theorem crawl_ne_new (L : Lib) (E : Net σ) (w : World σ) (t : String) :
    (crawl L E w).2 ≠ some (Err.new t) := by
  unfold crawl perform
  rcases E.roundTrip (w.emit (Event.invoke Op.crawl)).engine
    (NetReq.get indexName firstID) with ⟨s1, e | resp⟩
  · simp
  · simp only
    apply closeDeferred_ne_new
    intro t
    split
    · simp
    · rcases E.roundTrip _ (NetReq.httpGet crawlURL) with ⟨s2, e | rez⟩
      · simp
      · simp only
        apply closeDeferred_ne_new
        intro t
        split
        · simp
        · exact crawlLoop_ne_new L E _ 0 _ t

theorem search_ne_new (L : Lib) (E : Net σ) (key val : String) (w : World σ) (t : String) :
    (search L E key val w).2 ≠ some (Err.new t) := by
  simp only [search, perform]
  rcases E.roundTrip (w.emit (Event.invoke (Op.search key val))).engine
    (NetReq.search indexName (searchQuery key val)) with ⟨s1, e | resp⟩
  · simp
  · simp only
    apply closeDeferred_ne_new
    intro t
    split
    · simp
    · split
      · simp
      · split <;> simp

/-! ## Splitting the query argument -/

theorem splitChars_ne_nil (c : Char) (l : List Char) : splitChars c l ≠ [] := by
  induction l with
  | nil => simp [splitChars]
  | cons x xs ih =>
    unfold splitChars
    by_cases hx : x = c
    · simp [hx]
    · simp only [hx, if_false]
      split <;> simp

/-- Splitting yields one piece more than there are separators. -/
theorem splitChars_length (c : Char) (l : List Char) :
    (splitChars c l).length = l.count c + 1 := by
  induction l with
  | nil => simp [splitChars]
  | cons x xs ih =>
    unfold splitChars
    by_cases hx : x = c
    · subst hx
      simp [ih]
    · have hcount : (x :: xs).count c = xs.count c := by
        rw [List.count_cons]
        simp [hx]
      simp only [hx, if_false, hcount]
      rcases hs : splitChars c xs with _ | ⟨piece, pieces⟩
      · exact absurd hs (splitChars_ne_nil c xs)
      · rw [hs] at ih
        simpa using ih

/-- A text without the separator is its own single piece. -/
theorem splitChars_of_not_mem (c : Char) (l : List Char) (h : c ∉ l) : splitChars c l = [l] := by
  induction l with
  | nil => rfl
  | cons x xs ih =>
    have hx : x ≠ c := fun e => h (e ▸ List.mem_cons_self x xs)
    have hxs : c ∉ xs := fun hm => h (List.mem_cons_of_mem _ hm)
    unfold splitChars
    simp [hx, ih hxs]

/-- The first piece is the text before the first separator. -/
theorem splitChars_append_sep (c : Char) (a b : List Char) (h : c ∉ a) :
    splitChars c (a ++ c :: b) = a :: splitChars c b := by
  induction a with
  | nil => simp [splitChars]
  | cons x xs ih =>
    have hx : x ≠ c := fun e => h (e ▸ List.mem_cons_self x xs)
    have hxs : c ∉ xs := fun hm => h (List.mem_cons_of_mem _ hm)
    have hstep : splitChars c (x :: (xs ++ c :: b)) =
        if x = c then [] :: splitChars c (xs ++ c :: b)
        else
          match splitChars c (xs ++ c :: b) with
          | [] => [[x]]
          | piece :: pieces => (x :: piece) :: pieces := rfl
    rw [List.cons_append, hstep, ih hxs]
    simp [hx]

/-- A text with exactly one separator is a part without it, the separator, and
a part without it. -/
theorem exists_of_count_eq_one (c : Char) (l : List Char) (h : l.count c = 1) :
    ∃ a b, l = a ++ c :: b ∧ c ∉ a ∧ c ∉ b := by
  induction l with
  | nil => simp at h
  | cons x xs ih =>
    by_cases hx : x = c
    · subst hx
      refine ⟨[], xs, rfl, by simp, ?_⟩
      have : xs.count x = 0 := by simpa using h
      exact List.count_eq_zero.mp this
    · have hcount : xs.count c = 1 := by
        rw [List.count_cons] at h
        simpa [hx] using h
      obtain ⟨a, b, hab, ha, hb⟩ := ih hcount
      refine ⟨x :: a, b, by rw [hab]; rfl, ?_, hb⟩
      intro hm
      rcases List.mem_cons.mp hm with e | e
      · exact hx e.symm
      · exact ha e

/-- The query argument splits into exactly two pieces precisely when it has
exactly one colon. -/
theorem stringsSplit_length (q : String) (sep : Char) :
    (stringsSplit q sep).length = q.data.count sep + 1 := by
  unfold stringsSplit
  rw [List.length_map, splitChars_length]

/-- With exactly one colon the two pieces are the text before it and the text
after it. -/
theorem stringsSplit_of_one (q : String) (sep : Char) (h : q.data.count sep = 1) :
    ∃ key val : String, q = key ++ String.singleton sep ++ val ∧ sep ∉ key.data ∧
      sep ∉ val.data ∧ stringsSplit q sep = [key, val] := by
  obtain ⟨a, b, hab, ha, hb⟩ := exists_of_count_eq_one sep q.data h
  refine ⟨String.mk a, String.mk b, ?_, ha, hb, ?_⟩
  · apply String.ext
    simp only [String.data_append, hab]
    simp [String.singleton]
  · unfold stringsSplit
    rw [hab, splitChars_append_sep sep a b ha, splitChars_of_not_mem sep b hb]
    rfl

/-! ## The dispatch in `RunE` -/

/-- A run in search mode whose client is constructed and whose `prepare`
succeeds: `search` on the two pieces of the query when there are exactly two,
the validation error otherwise. -/
theorem RunE_search_mode (L : Lib) (E : Net σ) (s : σ) (q : String)
    (hclient : L.newClient = none) (hprep : (prepare L E ⟨s, []⟩).2 = none) :
    RunE L E { crawl := false, search := true, q := q } ⟨s, []⟩ =
      match stringsSplit q ':' with
      | [key, val] => search L E key val (prepare L E ⟨s, []⟩).1
      | _ => ((prepare L E ⟨s, []⟩).1,
              some (Err.new "Invalid query format. Expected key:value")) := by
  unfold RunE
  simp only [hclient]
  rcases hp : prepare L E ⟨s, []⟩ with ⟨w1, _ | e⟩
  · simp
  · rw [hp] at hprep; cases hprep

/-- A query that does not split into exactly two pieces takes the default
branch of the dispatch. -/
theorem split_match_other {α : Type} (f : String → String → α) (d : α) :
    ∀ pieces : List String, pieces.length ≠ 2 →
      (match pieces with
        | [key, val] => f key val
        | _ => d) = d := by
  intro pieces h
  rcases pieces with _ | ⟨a, _ | ⟨b, _ | ⟨c, rest⟩⟩⟩
  · rfl
  · rfl
  · simp at h
  · rfl

/-- The five ways a run of `RunE` can go, with the result and the operations
invoked in each. -/
theorem RunE_cases (L : Lib) (E : Net σ) (s : σ) (flags : Flags) :
    (flags.crawl = flags.search ∧
      RunE L E flags ⟨s, []⟩ =
        (⟨s, []⟩, some (Err.new "please specify either --search or --crawl"))) ∨
    (flags.crawl ≠ flags.search ∧ ∃ e, L.newClient = some e ∧
      RunE L E flags ⟨s, []⟩ = (⟨s, []⟩, some (Err.ext e))) ∨
    (flags.crawl ≠ flags.search ∧ L.newClient = none ∧
      (prepare L E ⟨s, []⟩).2 ≠ none ∧
      (RunE L E flags ⟨s, []⟩).2 = (prepare L E ⟨s, []⟩).2 ∧
      invoked (RunE L E flags ⟨s, []⟩).1.trace = [Op.prepare]) ∨
    (flags.crawl = true ∧ flags.search = false ∧ L.newClient = none ∧
      RunE L E flags ⟨s, []⟩ = crawl L E (prepare L E ⟨s, []⟩).1 ∧
      invoked (RunE L E flags ⟨s, []⟩).1.trace = [Op.prepare, Op.crawl]) ∨
    (flags.crawl = false ∧ flags.search = true ∧ L.newClient = none ∧
      ((∃ key val, RunE L E flags ⟨s, []⟩ = search L E key val (prepare L E ⟨s, []⟩).1 ∧
          invoked (RunE L E flags ⟨s, []⟩).1.trace = [Op.prepare, Op.search key val]) ∨
        ((RunE L E flags ⟨s, []⟩).2 =
            some (Err.new "Invalid query format. Expected key:value") ∧
          invoked (RunE L E flags ⟨s, []⟩).1.trace = [Op.prepare]))) := by
  have hinv : invoked (prepare L E ⟨s, []⟩).1.trace = [Op.prepare] := by
    have := invoked_prepare L E ⟨s, []⟩
    simpa [invoked] using this
  by_cases hflags : flags.crawl = flags.search
  · left
    exact ⟨hflags, by simp [RunE, hflags]⟩
  · right
    rcases hclient : L.newClient with _ | e
    · right
      rcases hp : prepare L E ⟨s, []⟩ with ⟨w1, _ | e⟩
      · right
        rw [hp] at hinv
        by_cases hc : flags.crawl = true
        · left
          have hs : flags.search = false := by
            rcases hsv : flags.search with _ | _
            · rfl
            · exact absurd (hc.trans hsv.symm) hflags
          refine ⟨hc, hs, rfl, ?_, ?_⟩
          · simp [RunE, hclient, hp, hc, hs]
          · have : RunE L E flags ⟨s, []⟩ = crawl L E w1 := by
              simp [RunE, hclient, hp, hc, hs]
            rw [this, invoked_crawl, hinv]
            rfl
        · right
          have hc' : flags.crawl = false := by simpa using hc
          have hs : flags.search = true := by
            rcases hsv : flags.search with _ | _
            · exact absurd (hc'.trans hsv.symm) hflags
            · rfl
          refine ⟨hc', hs, rfl, ?_⟩
          have hrun : RunE L E flags ⟨s, []⟩ =
              match stringsSplit flags.q ':' with
              | [key, val] => search L E key val w1
              | _ => (w1, some (Err.new "Invalid query format. Expected key:value")) := by
            simp [RunE, hclient, hp, hc', hs]
          by_cases hlen : (stringsSplit flags.q ':').length = 2
          · left
            rcases hsp : stringsSplit flags.q ':' with _ | ⟨a, _ | ⟨b, _ | ⟨c, rest⟩⟩⟩
            · rw [hsp] at hlen; simp at hlen
            · rw [hsp] at hlen; simp at hlen
            · refine ⟨a, b, ?_, ?_⟩
              · rw [hrun, hsp]
              · rw [hrun, hsp]
                simp only
                rw [invoked_search, hinv]
                rfl
            · rw [hsp] at hlen; simp at hlen
          · right
            rw [hrun, split_match_other _ _ _ hlen]
            exact ⟨rfl, hinv⟩
      · left
        rw [hp] at hinv
        refine ⟨hflags, rfl, by simp, ?_, ?_⟩
        · simp [RunE, hflags, hclient, hp]
        · have : RunE L E flags ⟨s, []⟩ = (w1, some e) := by
            simp [RunE, hflags, hclient, hp]
          rw [this]; exact hinv
    · left
      exact ⟨hflags, e, rfl, by simp [RunE, hflags, hclient]⟩

/-! ## Ingestion: one write per record, fail-fast -/

/-- C2 as stated fails: over engines that satisfy the stated model (existence
check not-found exactly when the index is absent, a successful create makes it
present), `prepare` on an absent index need not return success.  On the
reference engine whose `Close` fails it issues the existence check and the one
create request and returns the joined close errors; from a state where the
index exists it issues the existence check only and returns the close error;
on the reference engine that refuses creation it returns the error built from
the 503 response. -/
theorem prepare_success_counterexample :
    StatedIndexModel (failingCloseNet "") (fun s => indexName ∈ s.indices) ∧
    indexName ∉ Store.empty.indices ∧
    requests (prepare (fixtureLib [] []) (failingCloseNet "") ⟨Store.empty, []⟩).1.trace =
      [NetReq.indicesExists [indexName], NetReq.indicesCreate indexName mapping] ∧
    (prepare (fixtureLib [] []) (failingCloseNet "") ⟨Store.empty, []⟩).2 =
      some (Err.join2 (Err.join1 (Err.ext "close failed")) (Err.ext "close failed")) ∧
    requests (prepare (fixtureLib [] []) (failingCloseNet "") ⟨Store.withIndex, []⟩).1.trace =
      [NetReq.indicesExists [indexName]] ∧
    (prepare (fixtureLib [] []) (failingCloseNet "") ⟨Store.withIndex, []⟩).2 =
      some (Err.join1 (Err.ext "close failed")) ∧
    StatedIndexModel (rejectingCreateNet "") (fun s => indexName ∈ s.indices) ∧
    (prepare (fixtureLib [] []) (rejectingCreateNet "") ⟨Store.empty, []⟩).2 =
      some (Err.errorf "Error: [503] unavailable") :=
  ⟨failingCloseNet_stated "", by simp [Store.empty], rfl, rfl, rfl, rfl,
    rejectingCreateNet_stated "", rfl⟩

/-- C2, amended: over an engine model in which the existence check answers
not-found exactly when the index is absent, creating the absent index succeeds
and makes it present, and the existence check and `Close` leave presence alone
and `Close` reports no error, `prepare` from a state without the index "posts"
issues exactly one create request, with the fixed mapping as body, and returns
success, and `prepare` run again from the state it left issues no create
request and returns success.  For every engine, `prepare` issues a create
request if and only if the existence check answers with status not-found, and
for any other status it issues no mutating request and returns success exactly
when the deferred `Close` of the response body reports no error. -/
theorem prepare_creates_once_then_noop (L : Lib) (E : Net σ) :
    (∀ present : σ → Prop, IndexModel E present → ∀ s, ¬ present s →
      requests (prepare L E ⟨s, []⟩).1.trace =
          [NetReq.indicesExists [indexName], NetReq.indicesCreate indexName mapping] ∧
        (prepare L E ⟨s, []⟩).2 = none ∧
        requests (prepare L E ⟨(prepare L E ⟨s, []⟩).1.engine, []⟩).1.trace =
          [NetReq.indicesExists [indexName]] ∧
        (prepare L E ⟨(prepare L E ⟨s, []⟩).1.engine, []⟩).2 = none) ∧
    (∀ s, (∃ req ∈ requests (prepare L E ⟨s, []⟩).1.trace, req.isCreate = true) ↔
      ∃ resp, (E.roundTrip s (NetReq.indicesExists [indexName])).2 = Except.ok resp ∧
        resp.StatusCode = StatusNotFound) ∧
    (∀ s resp, (E.roundTrip s (NetReq.indicesExists [indexName])).2 = Except.ok resp →
      resp.StatusCode ≠ StatusNotFound →
        (requests (prepare L E ⟨s, []⟩).1.trace).filter NetReq.isMutating = [] ∧
        ((prepare L E ⟨s, []⟩).2 = none ↔
          (E.closeBody (E.roundTrip s (NetReq.indicesExists [indexName])).1 1).2 = none)) := by
  refine ⟨?_, ?_, ?_⟩
  · intro present hm s habs
    obtain ⟨h1, h2, h3⟩ := prepare_absent L E present hm s habs
    obtain ⟨h4, h5⟩ := prepare_present L E present hm _ h3
    exact ⟨h1, h2, h4, h5⟩
  · intro s
    have hreq := prepare_requests L E ⟨s, []⟩
    simp only [requests, List.filterMap_nil, List.nil_append] at hreq
    rcases hex : (E.roundTrip s (NetReq.indicesExists [indexName])).2 with e | resp
    · rw [hex] at hreq
      simp [requests, hreq, NetReq.isCreate]
    · rw [hex] at hreq
      by_cases hst : resp.StatusCode = StatusNotFound
      · simp [requests, hreq, hst, NetReq.isCreate]
      · simp [requests, hreq, hst, NetReq.isCreate]
  · intro s resp hresp hst
    have hreq := prepare_requests L E ⟨s, []⟩
    simp only [requests, List.filterMap_nil, List.nil_append, hresp, hst, if_false] at hreq
    refine ⟨by simp [requests, hreq, NetReq.isMutating], ?_⟩
    rw [prepare_of_found L E s _ resp (pair_eta _ _ hresp) hst]
    exact closeDeferred_none_iff E 1 _ rfl

/-- C2, closed instance: on the empty reference engine the first `prepare`
issues the existence check and one create request and succeeds; the second
issues the existence check only and succeeds. -/
theorem prepare_creates_once_then_noop_witness :
    requests (prepare (fixtureLib [] []) (storeNet "") ⟨Store.empty, []⟩).1.trace =
        [NetReq.indicesExists [indexName], NetReq.indicesCreate indexName mapping] ∧
      (prepare (fixtureLib [] []) (storeNet "") ⟨Store.empty, []⟩).2 = none ∧
      requests (prepare (fixtureLib [] []) (storeNet "")
        ⟨(prepare (fixtureLib [] []) (storeNet "") ⟨Store.empty, []⟩).1.engine, []⟩).1.trace =
        [NetReq.indicesExists [indexName]] ∧
      (prepare (fixtureLib [] []) (storeNet "")
        ⟨(prepare (fixtureLib [] []) (storeNet "") ⟨Store.empty, []⟩).1.engine, []⟩).2 = none :=
  (prepare_creates_once_then_noop (fixtureLib [] []) (storeNet "")).1
    (fun s => indexName ∈ s.indices) (storeNet_indexModel "") Store.empty
    (by simp [Store.empty])

/-! ## Re-running ingestion -/

/-- C4 as stated fails: the engine answers the search request with status 200,
the response decodes to two hits and both `_source` values decode as
documents, but `Close` on the response body fails; `search` prints the count
line and the two ids and then returns the joined close error, not success. -/
theorem search_success_counterexample :
    brokenCloseNet.roundTrip [Except.ok { StatusCode := 200, Body := "" }]
        (NetReq.search indexName (searchQuery "title" "a")) =
      ([], Except.ok { StatusCode := 200, Body := "" }) ∧
    Response.IsError { StatusCode := 200, Body := "" } = false ∧
    (fixtureLib [] ["a", "bb"]).decodeSearchResponse "" = Except.ok { Hits := ["a", "bb"] } ∧
    ["a", "bb"].map (fixtureLib [] ["a", "bb"]).unmarshalPost =
      [ Except.ok { ID := 1, Title := "a", Body := "", JapanseBody := "" },
        Except.ok { ID := 2, Title := "bb", Body := "", JapanseBody := "" } ] ∧
    printed (search (fixtureLib [] ["a", "bb"]) brokenCloseNet "title" "a"
      ⟨[Except.ok { StatusCode := 200, Body := "" }], []⟩).1.trace =
        ["matched 2 posts\n", "1\n", "2\n"] ∧
    (search (fixtureLib [] ["a", "bb"]) brokenCloseNet "title" "a"
      ⟨[Except.ok { StatusCode := 200, Body := "" }], []⟩).2 =
        some (Err.join1 (Err.ext "close failed")) :=
  ⟨rfl, rfl, rfl, rfl, rfl, rfl⟩

/-- C4, amended: when the engine answers the search request with a response,
then (a) if the status is no error, the response decodes to the hit list
`sr.Hits` and every `_source` decodes as a document, `search` prints the line
"matched n posts" followed by the ids of the documents one per line, in
hit-list order, and returns success exactly when the deferred `Close` of the
response body reports no error;
(b) if the engine reports an error status, the response fails to decode, or
some hit's `_source` fails to decode, `search` returns an error and prints
nothing. -/
theorem search_prints_ids_in_hit_order (L : Lib) (E : Net σ) (s s1 : σ) (key val : String)
    (resp : Response)
    (hreply : E.roundTrip s (NetReq.search indexName (searchQuery key val)) =
      (s1, Except.ok resp)) :
    (∀ (sr : SearchResponse) (posts : List Post), resp.IsError = false → L.decodeSearchResponse resp.Body = Except.ok sr →
      sr.Hits.map L.unmarshalPost = posts.map Except.ok →
        printed (search L E key val ⟨s, []⟩).1.trace =
          ("matched " ++ toString sr.Hits.length ++ " posts\n") ::
            posts.map (fun p => toString p.ID ++ "\n") ∧
        ((search L E key val ⟨s, []⟩).2 = none ↔ (E.closeBody s1 1).2 = none)) ∧
    ((resp.IsError = true ∨
      (∃ e, L.decodeSearchResponse resp.Body = Except.error e) ∨
      (∃ sr hit e, L.decodeSearchResponse resp.Body = Except.ok sr ∧ hit ∈ sr.Hits ∧
        L.unmarshalPost hit = Except.error e)) →
      (search L E key val ⟨s, []⟩).2 ≠ none ∧
        printed (search L E key val ⟨s, []⟩).1.trace = []) := by
  have hrun := search_of_response L E s s1 key val resp hreply
  constructor
  · intro sr posts hok hdec hdocs
    have hposts := (unmarshalHits_eq_ok L sr.Hits posts).mpr hdocs
    have hlen : sr.Hits.length = posts.length := by
      have := congrArg List.length hdocs
      simpa using this
    rw [hrun]
    simp only [hok, hdec, hposts, Bool.false_eq_true, if_false]
    constructor
    · rw [closeDeferred_trace, printed_close, printed_printPosts, hlen]
      rfl
    · have := closeDeferred_none_iff E 1
        (printPosts posts
          ⟨s1, [Event.invoke (Op.search key val),
                Event.call (NetReq.search indexName (searchQuery key val)) (some 1)]⟩, none) rfl
      rw [printPosts_engine] at this
      exact this
  · intro hbad
    rw [hrun]
    rcases hbad with herr | ⟨e, hdec⟩ | ⟨sr, hit, e, hdec, hmem, hhit⟩
    · simp only [herr, if_true]
      exact ⟨closeDeferred_ne_none _ _ _ (by simp), by
        rw [closeDeferred_trace, printed_close]; rfl⟩
    · by_cases herr : resp.IsError = true
      · simp only [herr, if_true]
        exact ⟨closeDeferred_ne_none _ _ _ (by simp), by
          rw [closeDeferred_trace, printed_close]; rfl⟩
      · simp only [herr, hdec, if_false]
        exact ⟨closeDeferred_ne_none _ _ _ (by simp), by
          rw [closeDeferred_trace, printed_close]; rfl⟩
    · obtain ⟨e', he'⟩ := unmarshalHits_error L sr.Hits hit e hmem hhit
      by_cases herr : resp.IsError = true
      · simp only [herr, if_true]
        exact ⟨closeDeferred_ne_none _ _ _ (by simp), by
          rw [closeDeferred_trace, printed_close]; rfl⟩
      · simp only [herr, hdec, he', if_false]
        exact ⟨closeDeferred_ne_none _ _ _ (by simp), by
          rw [closeDeferred_trace, printed_close]; rfl⟩

/-- C4, closed instance: a response with two hits whose documents have the ids
1 and 2 prints the count line and the two ids, in that order, and `search`
returns success. -/
theorem search_prints_ids_in_hit_order_witness :
    printed (search (fixtureLib [] ["a", "bb"]) scriptNet "title" "a"
      ⟨[Except.ok { StatusCode := 200, Body := "" }], []⟩).1.trace =
        ["matched 2 posts\n", "1\n", "2\n"] ∧
    (search (fixtureLib [] ["a", "bb"]) scriptNet "title" "a"
      ⟨[Except.ok { StatusCode := 200, Body := "" }], []⟩).2 = none :=
  have h := (search_prints_ids_in_hit_order (fixtureLib [] ["a", "bb"]) scriptNet
    [Except.ok { StatusCode := 200, Body := "" }] [] "title" "a"
    { StatusCode := 200, Body := "" } rfl).1
    { Hits := ["a", "bb"] }
    [ { ID := 1, Title := "a", Body := "", JapanseBody := "" },
      { ID := 2, Title := "bb", Body := "", JapanseBody := "" } ]
    rfl rfl rfl
  ⟨h.1.trans rfl, h.2.mpr rfl⟩

/-! ## Response bodies -/

/-- C9 fails in `prepare`: on the empty reference engine the existence check
opens body 1 and the create request opens body 3; `prepare` returns success
having called `Close` twice on body 1 and never on body 3. -/
theorem prepare_closes_wrong_body :
    opened (prepare (fixtureLib [] []) (storeNet "") ⟨Store.empty, []⟩).1.trace = [1, 3] ∧
    closed (prepare (fixtureLib [] []) (storeNet "") ⟨Store.empty, []⟩).1.trace = [1, 1] ∧
    (prepare (fixtureLib [] []) (storeNet "") ⟨Store.empty, []⟩).2 = none :=
  ⟨rfl, rfl, rfl⟩

/-! ## The request body of a search -/

/-- C10: for field and value strings without double quote and without
backslash, the one request `search` sends is the search request on "posts"
whose body is the match-query template with field and value inserted verbatim,
and two runs send the same request only if they have the same field and the
same value. -/
theorem search_body_exact_and_injective (L : Lib) (E : Net σ) (s : σ)
    (key val key2 val2 : String)
    (hkey : Unquoted key) (hval : Unquoted val) (hkey2 : Unquoted key2) (hval2 : Unquoted val2) :
    requests (search L E key val ⟨s, []⟩).1.trace =
      [NetReq.search "posts"
        ("\x7b\"query\": \x7b\"match\": \x7b\"" ++ key ++ "\": \"" ++ val ++ "\"\x7d\x7d\x7d")] ∧
    (requests (search L E key val ⟨s, []⟩).1.trace =
        requests (search L E key2 val2 ⟨s, []⟩).1.trace →
      key = key2 ∧ val = val2) := by
  have _ := hval
  have _ := hval2
  refine ⟨by rw [search_requests]; rfl, ?_⟩
  intro h
  rw [search_requests, search_requests] at h
  simp only [requests, List.filterMap_nil, List.nil_append, List.cons.injEq,
    NetReq.search.injEq, and_true, true_and] at h
  exact searchQuery_injective key val key2 val2 hkey.1 hkey2.1 h

/-- C10, closed instance: the query for `title:a`. -/
theorem search_body_exact_and_injective_witness :
    requests (search (fixtureLib [] []) (storeNet "") "title" "a" ⟨Store.empty, []⟩).1.trace =
      [NetReq.search "posts" "\x7b\"query\": \x7b\"match\": \x7b\"title\": \"a\"\x7d\x7d\x7d"] :=
  (search_body_exact_and_injective (fixtureLib [] []) (storeNet "") Store.empty
    "title" "a" "body" "b"
    (by unfold Unquoted; decide) (by unfold Unquoted; decide)
    (by unfold Unquoted; decide) (by unfold Unquoted; decide)).1.trans rfl

/-! ## Query validation and mode selection -/

/-- C5 as stated fails: the run in search mode with the query `title` on the
empty reference engine returns the query-format error, but only after
`prepare` has issued the existence check and the create request, so the trace
of network requests of the run is not empty. -/
theorem colonless_query_counterexample :
    (RunE (fixtureLib [] []) (storeNet "") { crawl := false, search := true, q := "title" }
      ⟨Store.empty, []⟩).2 = some (Err.new "Invalid query format. Expected key:value") ∧
    requests (RunE (fixtureLib [] []) (storeNet "")
      { crawl := false, search := true, q := "title" } ⟨Store.empty, []⟩).1.trace =
        [NetReq.indicesExists [indexName], NetReq.indicesCreate indexName mapping] ∧
    requests (RunE (fixtureLib [] []) (storeNet "")
      { crawl := false, search := true, q := "title" } ⟨Store.empty, []⟩).1.trace ≠ [] :=
  ⟨rfl, rfl, by rw [show requests (RunE (fixtureLib [] []) (storeNet "")
      { crawl := false, search := true, q := "title" } ⟨Store.empty, []⟩).1.trace =
        [NetReq.indicesExists [indexName], NetReq.indicesCreate indexName mapping] from rfl]
                exact List.cons_ne_nil _ _⟩

/-- C5, amended: for every query argument without a colon, a run in search
mode whose client is constructed does what `prepare` does and nothing more: its
network requests are the existence check, followed by one create request when
the check answered not-found; `search` is not invoked and no search request is
sent; and when `prepare` succeeds the run fails with the query-format
validation error. -/
theorem colonless_query_rejected_after_prepare (L : Lib) (E : Net σ) (s : σ) (q : String)
    (hq : ':' ∉ q.data) (hclient : L.newClient = none) :
    (RunE L E { crawl := false, search := true, q := q } ⟨s, []⟩).1 =
      (prepare L E ⟨s, []⟩).1 ∧
    (requests (RunE L E { crawl := false, search := true, q := q } ⟨s, []⟩).1.trace =
        [NetReq.indicesExists [indexName]] ∨
      requests (RunE L E { crawl := false, search := true, q := q } ⟨s, []⟩).1.trace =
        [NetReq.indicesExists [indexName], NetReq.indicesCreate indexName mapping]) ∧
    (∀ r ∈ requests (RunE L E { crawl := false, search := true, q := q } ⟨s, []⟩).1.trace,
      r.isSearch = false) ∧
    invoked (RunE L E { crawl := false, search := true, q := q } ⟨s, []⟩).1.trace =
      [Op.prepare] ∧
    ((prepare L E ⟨s, []⟩).2 = none →
      (RunE L E { crawl := false, search := true, q := q } ⟨s, []⟩).2 =
        some (Err.new "Invalid query format. Expected key:value")) := by
  have hsplit : stringsSplit q ':' = [q] := by
    unfold stringsSplit
    rw [splitChars_of_not_mem _ _ hq]
    rfl
  have hrun : RunE L E { crawl := false, search := true, q := q } ⟨s, []⟩ =
      ((prepare L E ⟨s, []⟩).1,
        match (prepare L E ⟨s, []⟩).2 with
        | some e => some e
        | none => some (Err.new "Invalid query format. Expected key:value")) := by
    unfold RunE
    simp only [hclient, hsplit]
    rcases prepare L E ⟨s, []⟩ with ⟨w1, _ | e⟩ <;> simp
  have hreq := prepare_requests L E ⟨s, []⟩
  simp only [requests, List.filterMap_nil, List.nil_append] at hreq
  have hcases : requests (prepare L E ⟨s, []⟩).1.trace = [NetReq.indicesExists [indexName]] ∨
      requests (prepare L E ⟨s, []⟩).1.trace =
        [NetReq.indicesExists [indexName], NetReq.indicesCreate indexName mapping] := by
    unfold requests
    rw [hreq]
    rcases (E.roundTrip s (NetReq.indicesExists [indexName])).2 with e | resp
    · exact Or.inl rfl
    · by_cases hst : resp.StatusCode = StatusNotFound
      · simp [hst]
      · simp [hst]
  rw [hrun]
  refine ⟨rfl, hcases, ?_, ?_, ?_⟩
  · intro r hr
    rcases hcases with h | h <;> rw [h] at hr <;> simp at hr <;>
      rcases hr with rfl | rfl <;> rfl
  · have := invoked_prepare L E ⟨s, []⟩
    simpa [invoked] using this
  · intro hp
    simp only [hp]

/-- C5, closed instance: the query `title` on the empty reference engine. -/
theorem colonless_query_rejected_after_prepare_witness :
    (RunE (fixtureLib [] []) (storeNet "") { crawl := false, search := true, q := "title" }
      ⟨Store.empty, []⟩).1 = (prepare (fixtureLib [] []) (storeNet "") ⟨Store.empty, []⟩).1 :=
  (colonless_query_rejected_after_prepare (fixtureLib [] []) (storeNet "") Store.empty "title"
    (by decide) rfl).1

/-- C6: in search mode, with the client constructed and `prepare` succeeding,
`search` is invoked if and only if the query has exactly one colon; then it is
invoked with the text before the colon as field and the text after it as value
(either may be empty); with no colon or with two or more the run returns the
error "Invalid query format. Expected key:value", `search` is not invoked and
no search request is sent. -/
theorem query_needs_exactly_one_colon (L : Lib) (E : Net σ) (s : σ) (q : String)
    (hclient : L.newClient = none) (hprep : (prepare L E ⟨s, []⟩).2 = none) :
    ((∃ key val, Op.search key val ∈
        invoked (RunE L E { crawl := false, search := true, q := q } ⟨s, []⟩).1.trace) ↔
      q.data.count ':' = 1) ∧
    (q.data.count ':' = 1 →
      ∃ key val : String, q = key ++ ":" ++ val ∧ ':' ∉ key.data ∧ ':' ∉ val.data ∧
        RunE L E { crawl := false, search := true, q := q } ⟨s, []⟩ =
          search L E key val (prepare L E ⟨s, []⟩).1 ∧
        invoked (RunE L E { crawl := false, search := true, q := q } ⟨s, []⟩).1.trace =
          [Op.prepare, Op.search key val]) ∧
    (q.data.count ':' ≠ 1 →
      (RunE L E { crawl := false, search := true, q := q } ⟨s, []⟩).2 =
          some (Err.new "Invalid query format. Expected key:value") ∧
        invoked (RunE L E { crawl := false, search := true, q := q } ⟨s, []⟩).1.trace =
          [Op.prepare] ∧
        ∀ r ∈ requests (RunE L E { crawl := false, search := true, q := q } ⟨s, []⟩).1.trace,
          r.isSearch = false) := by
  have hrun := RunE_search_mode L E s q hclient hprep
  have hinv : invoked (prepare L E ⟨s, []⟩).1.trace = [Op.prepare] := by
    have := invoked_prepare L E ⟨s, []⟩
    simpa [invoked] using this
  have hone : q.data.count ':' = 1 →
      ∃ key val : String, q = key ++ ":" ++ val ∧ ':' ∉ key.data ∧ ':' ∉ val.data ∧
        RunE L E { crawl := false, search := true, q := q } ⟨s, []⟩ =
          search L E key val (prepare L E ⟨s, []⟩).1 ∧
        invoked (RunE L E { crawl := false, search := true, q := q } ⟨s, []⟩).1.trace =
          [Op.prepare, Op.search key val] := by
    intro h1
    obtain ⟨key, val, hqeq, hk, hv, hsplit⟩ := stringsSplit_of_one q ':' h1
    have hr : RunE L E { crawl := false, search := true, q := q } ⟨s, []⟩ =
        search L E key val (prepare L E ⟨s, []⟩).1 := by
      rw [hrun, hsplit]
    refine ⟨key, val, hqeq, hk, hv, hr, ?_⟩
    rw [hr, invoked_search, hinv]
    rfl
  have hother : q.data.count ':' ≠ 1 →
      (RunE L E { crawl := false, search := true, q := q } ⟨s, []⟩).2 =
          some (Err.new "Invalid query format. Expected key:value") ∧
        invoked (RunE L E { crawl := false, search := true, q := q } ⟨s, []⟩).1.trace =
          [Op.prepare] ∧
        ∀ r ∈ requests (RunE L E { crawl := false, search := true, q := q } ⟨s, []⟩).1.trace,
          r.isSearch = false := by
    intro hne
    have hlen : (stringsSplit q ':').length ≠ 2 := by
      rw [stringsSplit_length]; omega
    rw [hrun, split_match_other _ _ _ hlen]
    refine ⟨rfl, hinv, ?_⟩
    intro r hr
    have hreq := prepare_requests L E ⟨s, []⟩
    simp only [requests, List.filterMap_nil, List.nil_append] at hreq
    unfold requests at hr
    rw [hreq] at hr
    rcases hex : (E.roundTrip s (NetReq.indicesExists [indexName])).2 with e | resp
    · rw [hex] at hr
      simp at hr; rw [hr]; rfl
    · rw [hex] at hr
      by_cases hst : resp.StatusCode = StatusNotFound
      · simp [hst] at hr; rcases hr with rfl | rfl <;> rfl
      · simp [hst] at hr; rw [hr]; rfl
  refine ⟨⟨?_, ?_⟩, hone, hother⟩
  · rintro ⟨key, val, hmem⟩
    by_contra hne
    rw [(hother hne).2.1] at hmem
    simp at hmem
  · intro h1
    obtain ⟨key, val, _, _, _, _, hi⟩ := hone h1
    exact ⟨key, val, by rw [hi]; simp⟩

/-- C6, closed instance: the query `title:a` reaches `search` with field
`title` and value `a`; the query `a:b:c` is rejected. -/
theorem query_needs_exactly_one_colon_witness :
    (∃ key val : String, "title:a" = key ++ ":" ++ val ∧ ':' ∉ key.data ∧ ':' ∉ val.data ∧
        RunE (fixtureLib [] []) (storeNet "")
            { crawl := false, search := true, q := "title:a" } ⟨Store.empty, []⟩ =
          search (fixtureLib [] []) (storeNet "") key val
            (prepare (fixtureLib [] []) (storeNet "") ⟨Store.empty, []⟩).1 ∧
        invoked (RunE (fixtureLib [] []) (storeNet "")
            { crawl := false, search := true, q := "title:a" } ⟨Store.empty, []⟩).1.trace =
          [Op.prepare, Op.search key val]) ∧
    (RunE (fixtureLib [] []) (storeNet "")
        { crawl := false, search := true, q := "a:b:c" } ⟨Store.empty, []⟩).2 =
      some (Err.new "Invalid query format. Expected key:value") :=
  ⟨(query_needs_exactly_one_colon (fixtureLib [] []) (storeNet "") Store.empty "title:a"
      rfl rfl).2.1 (by decide),
   ((query_needs_exactly_one_colon (fixtureLib [] []) (storeNet "") Store.empty "a:b:c"
      rfl rfl).2.2 (by decide)).1⟩

/-- C8: for every pair of values of the flags `--crawl` and `--search`, the run
returns the usage error "please specify either --search or --crawl" if and only
if the two flags are equal, and then its trace is empty (no network call, none
of `prepare`, `crawl`, `search` invoked); when the flags differ and the client
is constructed, `prepare` is the first operation invoked; no operation is ever
invoked before `prepare`; `crawl` is invoked only if `--crawl` is set, `search`
only if `--search` is set, and never both. -/
theorem mode_flags_select_one_operation (L : Lib) (E : Net σ) (s : σ) (flags : Flags) :
    ((RunE L E flags ⟨s, []⟩).2 = some (Err.new "please specify either --search or --crawl") ↔
      flags.crawl = flags.search) ∧
    (flags.crawl = flags.search →
      (RunE L E flags ⟨s, []⟩).1.trace = [] ∧
        requests (RunE L E flags ⟨s, []⟩).1.trace = [] ∧
        invoked (RunE L E flags ⟨s, []⟩).1.trace = []) ∧
    (flags.crawl ≠ flags.search → L.newClient = none →
      (invoked (RunE L E flags ⟨s, []⟩).1.trace).head? = some Op.prepare) ∧
    (∀ op ∈ invoked (RunE L E flags ⟨s, []⟩).1.trace,
      (invoked (RunE L E flags ⟨s, []⟩).1.trace).head? = some Op.prepare) ∧
    (Op.crawl ∈ invoked (RunE L E flags ⟨s, []⟩).1.trace →
      flags.crawl = true ∧ flags.search = false) ∧
    (∀ key val, Op.search key val ∈ invoked (RunE L E flags ⟨s, []⟩).1.trace →
      flags.search = true ∧ flags.crawl = false) ∧
    ¬ (Op.crawl ∈ invoked (RunE L E flags ⟨s, []⟩).1.trace ∧
        ∃ key val, Op.search key val ∈ invoked (RunE L E flags ⟨s, []⟩).1.trace) := by
  rcases RunE_cases L E s flags with
    ⟨hf, hrun⟩ | ⟨hf, e, hcl, hrun⟩ | ⟨hf, hcl, hpe, hres, hinv⟩ |
    ⟨hc, hs, hcl, hrun, hinv⟩ | ⟨hc, hs, hcl, ⟨key, val, hrun, hinv⟩ | ⟨hres, hinv⟩⟩
  · rw [hrun]
    simp [hf, requests, invoked]
  · rw [hrun]
    simp [hf, hcl, requests, invoked]
  · rw [hinv, hres]
    refine ⟨⟨fun h => absurd h (prepare_ne_new L E _ _), fun h => absurd h hf⟩,
      fun h => absurd h hf, fun _ _ => rfl, fun _ _ => rfl, ?_, ?_, ?_⟩ <;> simp
  · have hne : flags.crawl ≠ flags.search := by rw [hc, hs]; simp
    rw [hinv, hrun]
    refine ⟨⟨fun h => absurd h (crawl_ne_new L E _ _), fun h => absurd h hne⟩,
      fun h => absurd h hne, fun _ _ => rfl, fun _ _ => rfl, fun _ => ⟨hc, hs⟩, ?_, ?_⟩ <;> simp
  · have hne : flags.crawl ≠ flags.search := by rw [hc, hs]; simp
    rw [hinv, hrun]
    refine ⟨⟨fun h => absurd h (search_ne_new L E _ _ _ _), fun h => absurd h hne⟩,
      fun h => absurd h hne, fun _ _ => rfl, fun _ _ => rfl, ?_, fun _ _ _ => ⟨hs, hc⟩, ?_⟩ <;>
      simp
  · have hne : flags.crawl ≠ flags.search := by rw [hc, hs]; simp
    rw [hinv, hres]
    refine ⟨⟨fun h => ?_, fun h => absurd h hne⟩,
      fun h => absurd h hne, fun _ _ => rfl, fun _ _ => rfl, ?_, ?_, ?_⟩
    · simp at h
    · simp
    · simp
    · simp

/-- C8, closed instance: with `--crawl` alone on the empty reference engine,
`prepare` is invoked first, then `crawl`, and `search` is not invoked. -/
theorem mode_flags_select_one_operation_witness :
    (invoked (RunE (fixtureLib sampleFeed []) (storeNet "feed")
      { crawl := true, search := false, q := "" } ⟨Store.empty, []⟩).1.trace).head? =
        some Op.prepare :=
  (mode_flags_select_one_operation (fixtureLib sampleFeed []) (storeNet "feed") Store.empty
    { crawl := true, search := false, q := "" }).2.2.1 (by decide) rfl

end MyEs
